import Mathlib

/-!
Shallow embedding of the `seo_pages` repository (crawler, robots manager,
ranking engine, click recorder, decay sweeper) together with theorems
checking the natural-language specification against the code.

Conventions used throughout:
* Python `int` is modelled as `ℤ`, Python `float` as `ℝ` (the spec states
  the ranking formulas over the reals, with `ln`).
* Python `Optional[T]` is modelled as `Option T`.
* Python truthiness of `Optional[int]` (`None` and `0` are falsy) is
  modelled explicitly where the source relies on it (`x or y`, `not x`).
* Stateful code is modelled by explicit state passing; external I/O
  (HTTP responses, the wall clock) is passed in as explicit data.
-/

namespace SeoPages

/-! ## Python string primitives

The source manipulates Python `str` values with `startswith`, `strip`,
`lower`, `splitlines` and `split`.  These are modelled here over the
character list underlying a Lean `String`, following their documented
Python semantics, so that all robots-handling code is kernel-computable. -/

/-- Python `str.startswith`: character-sequence leading-part test. -/
def pyStartsWith (s pre : String) : Bool :=
  pre.data.isPrefixOf s.data

/-- The Python whitespace class used by `str.strip()`:
space, tab, newline, carriage return, vertical tab, form feed. -/
def pyIsSpace (c : Char) : Bool :=
  (c == ' ') || (c == '\t') || (c == '\n') || (c == '\r') ||
    (c == '\x0b') || (c == '\x0c')

/-- Python `str.strip()`: drop leading and trailing whitespace. -/
def pyStrip (s : String) : String :=
  ⟨((s.data.dropWhile pyIsSpace).reverse.dropWhile pyIsSpace).reverse⟩

/-- Python `str.lower()` (ASCII case folding, which is all the source needs). -/
def pyLower (s : String) : String :=
  ⟨s.data.map Char.toLower⟩

/-- Split a character list at every occurrence of `sep`. -/
def splitOnChar (sep : Char) : List Char → List (List Char)
  | [] => [[]]
  | a :: rest =>
    let r := splitOnChar sep rest
    if a == sep then [] :: r
    else
      match r with
      | [] => [[a]]
      | h :: t => (a :: h) :: t

/-- Python `str.splitlines()` restricted to `\n` terminators: like
splitting on `\n` but without a trailing empty line. -/
def pySplitlines (s : String) : List String :=
  let parts := splitOnChar '\n' s.data
  let parts := if parts.getLast? = some [] then parts.dropLast else parts
  parts.map fun l => ⟨l⟩

/-- Python `s.split(sep, 1)` when `sep` occurs in `s`: the part before the
first occurrence and the part after it; `none` when `sep` is absent
(which also models the `":" in line` membership test). -/
def splitFirstChar (sep : Char) : List Char → Option (List Char × List Char)
  | [] => none
  | a :: rest =>
    if a == sep then some ([], rest)
    else
      match splitFirstChar sep rest with
      | none => none
      | some (pre, post) => some (a :: pre, post)

/-- Python `s.split(sep, 1)[0]`: the part before the first occurrence of
`sep` (the whole string when `sep` is absent). -/
def beforeChar (sep : Char) (l : List Char) : List Char :=
  l.takeWhile fun c => !(c == sep)

/-! ## Ranking formula (`app/ranking.py`) -/

/-- Python truthiness resolution of `value or fallback` for an
`Optional[int]`: `None` and `0` both select the fallback.  This models
`now_ms = now_ms or current_time_ms()` in `app/ranking.py`, where the
fallback is the ambient wall clock (passed explicitly here). -/
def pyOrInt (value : Option ℤ) (fallback : ℤ) : ℤ :=
  match value with
  | none => fallback
  | some x => if x = 0 then fallback else x

/-- Embedding of `compute_decay_hours` from `app/ranking.py`.
`clock` is the ambient wall clock read by `current_time_ms()`.
The source tests `if not last_clicked_at_ms`, so a last-click timestamp
of `0` is treated like an absent one. -/
noncomputable def compute_decay_hours (clock : ℤ) (last_clicked_at_ms : Option ℤ)
    (now_ms : Option ℤ) : ℝ :=
  let n : ℤ := pyOrInt now_ms clock
  match last_clicked_at_ms with
  | none => 0
  | some l => if l = 0 then 0 else max 0 (((n : ℝ) - (l : ℝ)) / 3600000)

/-- Embedding of `compute_ranking_score` from `app/ranking.py`:
`log(clicks_total + 1) + recent_clicks * 0.7 - decay_hours * decay_per_hour`,
with `now_ms` resolved through Python truthiness against the clock. -/
noncomputable def compute_ranking_score (clock : ℤ) (clicks_total : ℤ)
    (recent_clicks : ℝ) (last_clicked_at_ms : Option ℤ) (now_ms : Option ℤ)
    (decay_per_hour : ℝ) : ℝ :=
  let n : ℤ := pyOrInt now_ms clock
  let decay_hours : ℝ := compute_decay_hours clock last_clicked_at_ms (some n)
  let decay : ℝ := decay_hours * decay_per_hour
  Real.log ((clicks_total : ℝ) + 1) + recent_clicks * 0.7 - decay

/-! ## Robots rules (`app/robots_manager.py`) -/

/-- Embedding of the `RobotsRules` dataclass. `crawl_delay` is kept as a
rational (the repository parses it with Python `float(...)`). -/
structure RobotsRules where
  allows : List String := []
  disallows : List String := []
  crawl_delay : Option ℚ := none
deriving Repr, DecidableEq

/-- Embedding of the inner helper `longest_prefix_length` of
`RobotsRules.is_allowed`: the maximum length of a pattern that is both
non-empty (`if rule`) and a prefix of the path (`path_value.startswith`),
or `-1` when no pattern matches.  (Renamed from the source's
`longest_prefix_length` purely for lexical reasons.) -/
def longest_match_length (path_value : String) (patterns : List String) : ℤ :=
  let lens :=
    (patterns.filter (fun rule => !(rule == "") && pyStartsWith path_value rule)).map
      (fun rule => (rule.length : ℤ))
  lens.max?.getD (-1)

/-- Embedding of `RobotsRules.is_allowed`. -/
def RobotsRules.is_allowed (r : RobotsRules) (path : String) : Bool :=
  let allow_len := longest_match_length path r.allows
  let disallow_len := longest_match_length path r.disallows
  if disallow_len = -1 then true
  else if allow_len = -1 then false
  else if allow_len > disallow_len then true
  else if allow_len < disallow_len then false
  else true

/-- The spec's (§4.2) wording of the longest-match quantity: the maximum
length of a pattern that is a prefix of the path, with no exclusion of
empty patterns.  Stated from the spec's words, for comparison with
`longest_match_length` taken from the source. -/
def spec_longest_match_length (path_value : String) (patterns : List String) : ℤ :=
  let lens :=
    (patterns.filter (fun rule => pyStartsWith path_value rule)).map
      (fun rule => (rule.length : ℤ))
  lens.max?.getD (-1)

/-- The spec's (§4.2) wording of `is_allowed`, built on
`spec_longest_match_length`.  Stated from the spec's words, for comparison
with `RobotsRules.is_allowed` taken from the source. -/
def spec_is_allowed (r : RobotsRules) (path : String) : Bool :=
  let a := spec_longest_match_length path r.allows
  let d := spec_longest_match_length path r.disallows
  if d = -1 then true
  else if a = -1 then false
  else if a > d then true
  else if a < d then false
  else true

/-- A freshly constructed `RobotsRules()`: all fields at their defaults. -/
def emptyRules : RobotsRules := ⟨[], [], none⟩

/-! ## Robots parser (`RobotsManager._parse_robots`) -/

/-- Insertion-ordered string-keyed map, modelling the Python dict
`rules_map` of `_parse_robots` (only `setdefault`, field mutation and
ordered iteration are used). -/
def mapFind (m : List (String × RobotsRules)) (k : String) : Option RobotsRules :=
  (m.find? fun kv => kv.1 == k).map Prod.snd

/-- Python `dict.setdefault(k, RobotsRules())`: append a fresh entry when
the key is absent. -/
def mapSetdefault (m : List (String × RobotsRules)) (k : String) :
    List (String × RobotsRules) :=
  if (m.find? fun kv => kv.1 == k).isSome then m else m ++ [(k, emptyRules)]

/-- In-place mutation of the rules object stored under a key. -/
def mapModify (m : List (String × RobotsRules)) (k : String)
    (f : RobotsRules → RobotsRules) : List (String × RobotsRules) :=
  m.map fun kv => if kv.1 == k then (kv.1, f kv.2) else kv

/-- Append a pattern to the allow or disallow list of a rules object
(the `target_list.append(value)` of the source). -/
def addPattern (isAllow : Bool) (value : String) (r : RobotsRules) : RobotsRules :=
  if isAllow then { r with allows := r.allows ++ [value] }
  else { r with disallows := r.disallows ++ [value] }

/-- One agent's worth of the `allow` / `disallow` branch of the parser:
`rules_map.setdefault(agent, RobotsRules())` followed by
`if value: target_list.append(value)`. -/
def applyDirective (isAllow : Bool) (value : String)
    (m : List (String × RobotsRules)) (agent : String) :
    List (String × RobotsRules) :=
  let m1 := mapSetdefault m agent
  if value = "" then m1 else mapModify m1 agent (addPattern isAllow value)

/-- One agent's worth of the `crawl-delay` branch of the parser. -/
def applyCrawlDelay (delay : ℚ) (m : List (String × RobotsRules))
    (agent : String) : List (String × RobotsRules) :=
  mapModify (mapSetdefault m agent) agent fun r => { r with crawl_delay := some delay }

/-- The loop state of `_parse_robots`: the per-agent rules map, the agent
group currently in effect, and the last recognised key. -/
structure ParseState where
  rules_map : List (String × RobotsRules) := []
  current_agents : List String := []
  last_key : Option String := none

/-- One iteration of the `_parse_robots` line loop. `pf` models Python
`float(...)` parsing (an external library call): `none` on `ValueError`.
Branches that `continue` early leave `last_key` unchanged, exactly as in
the source. -/
def processLine (pf : String → Option ℚ) (st : ParseState) (raw : String) :
    ParseState :=
  let line := pyStrip ⟨beforeChar '#' raw.data⟩
  if line = "" then st
  else
    match splitFirstChar ':' line.data with
    | none => st
    | some (k, v) =>
      let key := pyStrip ⟨k⟩
      let value := pyStrip ⟨v⟩
      let key_lower := pyLower key
      if key_lower = "user-agent" then
        let agent := value
        let current :=
          if st.last_key = some "user-agent" then st.current_agents ++ [agent]
          else [agent]
        { rules_map := mapSetdefault st.rules_map agent
          current_agents := current
          last_key := some key_lower }
      else if key_lower = "allow" ∨ key_lower = "disallow" then
        if st.current_agents = [] then st
        else
          { st with
            rules_map :=
              st.current_agents.foldl
                (fun m agent => applyDirective (key_lower = "allow") value m agent)
                st.rules_map
            last_key := some key_lower }
      else if key_lower = "crawl-delay" then
        if st.current_agents = [] then st
        else
          match pf value with
          | none => st
          | some delay =>
            { st with
              rules_map :=
                st.current_agents.foldl
                  (fun m agent => applyCrawlDelay delay m agent) st.rules_map
              last_key := some key_lower }
      else { st with last_key := some key_lower }

/-- Embedding of `RobotsManager._parse_robots`: fold the line loop over
the content's lines, then select the group whose agent matches
`user_agent` case-insensitively, falling back to `*`, falling back to
empty (allow-all) rules. -/
def parse_robots (pf : String → Option ℚ) (user_agent : String)
    (content : String) : RobotsRules :=
  let st := (pySplitlines content).foldl (processLine pf) ⟨[], [], none⟩
  let ual := pyLower user_agent
  match st.rules_map.find? (fun kv => pyLower kv.1 == ual) with
  | some kv => kv.2
  | none => (mapFind st.rules_map "*").getD emptyRules

/-! ## Robots manager cache (`RobotsManager.ensure_rules`) -/

/-- Outcome of the single `robots.txt` HTTP fetch a call may perform:
a response with a status and body, or a network-level failure (the
`except Exception` branch of the source). -/
inductive RobotsFetchOutcome where
  | response (status : ℕ) (body : String)
  | failure (msg : String)

/-- What the fetch branch of `ensure_rules` stores for an uncached
origin: the parsed rules on HTTP 200 (`if resp.status == 200`), empty
(allow-all) rules on any other status, and empty rules on a network
error (the `except Exception` branch).  Total: no outcome raises. -/
def fetched_rules (pf : String → Option ℚ) (user_agent : String) :
    RobotsFetchOutcome → RobotsRules
  | .response status body =>
    if status = 200 then parse_robots pf user_agent body else emptyRules
  | .failure _ => emptyRules

/-- Embedding of `RobotsManager.ensure_rules` for one origin.  The state
is the `self.rules` cache (an insertion-ordered map from origin to
rules); `outcome` is what the single fetch of `origin + "/robots.txt"`
would return if performed.  Result: the rules handed to the caller, the
new cache, and whether a fetch was performed. -/
def ensure_rules (pf : String → Option ℚ) (user_agent : String)
    (cache : List (String × RobotsRules)) (origin : String)
    (outcome : RobotsFetchOutcome) :
    RobotsRules × List (String × RobotsRules) × Bool :=
  match mapFind cache origin with
  | some r => (r, cache, false)
  | none =>
    let r := fetched_rules pf user_agent outcome
    (r, cache ++ [(origin, r)], true)

/-! ## URL normalizer (`Crawler.normalize_url`, `app/crawler.py`) -/

/-- Embedding of `Crawler.normalize_url`.  `urljoin` and `defragment`
model the standard-library calls `urllib.parse.urljoin` and the
`urlparse(full)._replace(fragment="").geturl()` round trip; they are
passed in as parameters since they are external collaborators.  The
source checks `if not link` on the *untrimmed* link, then strips, then
rejects the `mailto:` / `tel:` / `javascript:` schemes. -/
def normalize_url (urljoin : String → String → String)
    (defragment : String → String) (base : String) (link : Option String) :
    Option String :=
  match link with
  | none => none
  | some l =>
    if l = "" then none
    else
      let l2 := pyStrip l
      if pyStartsWith l2 "mailto:" || pyStartsWith l2 "tel:" ||
          pyStartsWith l2 "javascript:" then none
      else some (defragment (urljoin base l2))

/-! ## Frontier (`Crawler._mark_enqueued`, `_mark_visited`,
`_increment_pages` in `app/crawler.py`) -/

/-- The crawler's shared frontier state: the `visited` and `enqueued`
sets, the page counter, and the one-shot `stop_event` flag. -/
structure FrontierState where
  visited : List String
  enqueued : List String
  pages_crawled : ℤ
  stop : Bool
deriving Repr, DecidableEq

/-- Embedding of `Crawler._mark_enqueued` (the body under `url_lock`):
refuse when the URL was already seen or the stop flag is set, otherwise
record it as enqueued. -/
def mark_enqueued (s : FrontierState) (url : String) : Bool × FrontierState :=
  if url ∈ s.visited ∨ url ∈ s.enqueued ∨ s.stop then (false, s)
  else (true, { s with enqueued := s.enqueued ++ [url] })

/-- Embedding of `Crawler._mark_visited`. -/
def mark_visited (s : FrontierState) (url : String) : FrontierState :=
  { s with visited := s.visited ++ [url] }

/-- Embedding of `Crawler._increment_pages` (the spec's
`reserve_page_slot`), the body under `pages_lock`. -/
def increment_pages (max_pages : ℤ) (s : FrontierState) :
    Option ℤ × FrontierState :=
  if s.pages_crawled ≥ max_pages then (none, { s with stop := true })
  else
    let p := s.pages_crawled + 1
    (some p, { s with pages_crawled := p, stop := s.stop || decide (p ≥ max_pages) })

/-- The frontier operations, for invariant statements quantifying over
"every frontier operation". -/
inductive FrontierOp where
  | enq (url : String)
  | visit (url : String)
  | slot

/-- State effect of one frontier operation. -/
def applyFrontierOp (max_pages : ℤ) (s : FrontierState) :
    FrontierOp → FrontierState
  | .enq url => (mark_enqueued s url).2
  | .visit url => mark_visited s url
  | .slot => (increment_pages max_pages s).2

/-! ## Fetcher (`Crawler.fetch`, `app/crawler.py`) -/

/-- What one HTTP attempt yields before `raise_for_status`: either a
response (status plus decoded body) or a network-level error (timeout,
DNS failure, ...). -/
inductive HttpOutcome where
  | success (status : ℕ) (body : String)
  | netError (msg : String)

/-- The error recorded for a failed attempt. -/
inductive FetchError where
  | httpStatus (status : ℕ)
  | net (msg : String)
deriving Repr, DecidableEq

/-- One attempt of the fetch loop body: a network error is caught by the
`except` clause; a response goes through `resp.raise_for_status()`, which
(per aiohttp) raises exactly when the status is 400 or higher, and
otherwise the decoded body is returned. -/
def attemptResult : HttpOutcome → Except FetchError String
  | .netError m => .error (.net m)
  | .success s b => if 400 ≤ s then .error (.httpStatus s) else .ok b

/-- The retry loop of `Crawler.fetch` over an explicit list of attempt
numbers (the source iterates `range(1, max_retries + 1)`).  `resp` gives
the outcome of the HTTP attempt with a given number; `lastE` is the
`last_error` accumulator (`none` models the fresh `RuntimeError` raised
when no attempt ran).  Result: the final outcome, the number of HTTP
attempts performed, and the list of back-off sleeps, in order — a sleep
of `retry_backoff * attempt` happens after a failure at every attempt
other than the last. -/
def fetch_loop (resp : ℕ → HttpOutcome) (backoff : ℝ) :
    List ℕ → Option FetchError → Except (Option FetchError) String × ℕ × List ℝ
  | [], lastE => (.error lastE, 0, [])
  | a :: rest, _ =>
    match attemptResult (resp a) with
    | .ok b => (.ok b, 1, [])
    | .error e =>
      let r := fetch_loop resp backoff rest (some e)
      (r.1, r.2.1 + 1, (if rest.isEmpty then [] else [backoff * (a : ℝ)]) ++ r.2.2)

/-- Embedding of `Crawler.fetch`: run the retry loop over attempts
`1, ..., max_retries` with no error recorded yet. -/
def fetch (resp : ℕ → HttpOutcome) (backoff : ℝ) (max_retries : ℕ) :
    Except (Option FetchError) String × ℕ × List ℝ :=
  fetch_loop resp backoff (List.range' 1 max_retries) none

/-! ## Click recorder and decay sweep (`app/search_api.py`) -/

/-- The ranking-relevant fields of a stored pages-index document.
Counters may be `null` in a stored document (the scripts guard for it),
hence the `Option`s. -/
structure PageDoc where
  clicks_total : Option ℤ
  recent_clicks : Option ℝ
  last_clicked_at_ms : Option ℤ
  ranking_score : Option ℝ

/-- Embedding of `CLICK_UPDATE_SCRIPT` (the Painless script run when the
document already exists): null counters default to zero, `prev_last`
defaults to `now_ms`, both click counters are incremented, the last-click
stamp moves to `now_ms`, and the score is recomputed with the decay gap
measured from the previous click.  The script's division is not clamped
at zero. -/
noncomputable def click_update (now_ms : ℤ) (decay_per_hour : ℝ)
    (doc : PageDoc) : PageDoc :=
  let ct := doc.clicks_total.getD 0
  let rc := doc.recent_clicks.getD 0
  let prevLast := doc.last_clicked_at_ms.getD now_ms
  let ct1 := ct + 1
  let rc1 := rc + 1
  let decayHours : ℝ := ((now_ms : ℝ) - (prevLast : ℝ)) / 3600000
  let decay := decayHours * decay_per_hour
  { clicks_total := some ct1
    recent_clicks := some rc1
    last_clicked_at_ms := some now_ms
    ranking_score := some (Real.log ((ct1 : ℝ) + 1) + rc1 * 0.7 - decay) }

/-- Embedding of the `upsert_doc` built by `track_click` for a URL with
no stored document: one click, with the score computed by
`compute_ranking_score(1, 1.0, now_ms, now_ms)`. -/
noncomputable def track_click_upsert (clock now_ms : ℤ) (decay_per_hour : ℝ) :
    PageDoc :=
  { clicks_total := some 1
    recent_clicks := some 1
    last_clicked_at_ms := some now_ms
    ranking_score :=
      some (compute_ranking_score clock 1 1 (some now_ms) (some now_ms) decay_per_hour) }

/-- Embedding of the pages-index effect of `track_click` (the
`es.update(..., script, upsert)` call): run the update script when the
document exists, insert the stub document otherwise. -/
noncomputable def track_click (clock now_ms : ℤ) (decay_per_hour : ℝ) :
    Option PageDoc → PageDoc
  | some doc => click_update now_ms decay_per_hour doc
  | none => track_click_upsert clock now_ms decay_per_hour

/-- Embedding of `DECAY_SCRIPT` (the per-document body of
`apply_decay`'s update-by-query): null counters default to zero,
`recent_clicks` is multiplied by the multiplier and floored to `0.0`
below `0.01`, and the score is recomputed from the doc's last-click
stamp (defaulting to `now_ms`); the division is not clamped at zero. -/
noncomputable def decay_update (now_ms : ℤ) (recent_click_multiplier : ℝ)
    (decay_per_hour : ℝ) (doc : PageDoc) : PageDoc :=
  let rc := doc.recent_clicks.getD 0
  let ct := doc.clicks_total.getD 0
  let rc1 := rc * recent_click_multiplier
  let rc2 : ℝ := if rc1 < 0.01 then 0 else rc1
  let last := doc.last_clicked_at_ms.getD now_ms
  let decayHours : ℝ := ((now_ms : ℝ) - (last : ℝ)) / 3600000
  let decay := decayHours * decay_per_hour
  { doc with
    clicks_total := some ct
    recent_clicks := some rc2
    ranking_score := some (Real.log ((ct : ℝ) + 1) + rc2 * 0.7 - decay) }

/-! ## Claim theorems -/

/-- On a pattern list without the empty string, the source's longest-match
helper (which skips empty patterns) agrees with the spec's (which does not). -/
theorem longest_match_eq_spec (p : String) (l : List String) (h : "" ∉ l) :
    longest_match_length p l = spec_longest_match_length p l := by
  unfold longest_match_length spec_longest_match_length
  have hf : l.filter (fun rule => !(rule == "") && pyStartsWith p rule) =
      l.filter (fun rule => pyStartsWith p rule) := by
    induction l with
    | nil => rfl
    | cons a t ih =>
      have ha : ¬ (a = "") := fun e => h (by simp [e])
      have ht : "" ∉ t := fun m => h (List.mem_cons_of_mem a m)
      have hb : (a == "") = false := beq_eq_false_iff_ne.mpr ha
      simp [List.filter_cons, hb, ih ht]
  rw [hf]

/-- Claim C1 counterexample: on the rules object with `allows = []` and
`disallows = [""]` and path `"/"`, the code allows while the claim's
longest-prefix rule (an empty pattern is a prefix of every path, so
`D = 0` and `A = -1`, hence deny) forbids. -/
theorem claim_c1_counterexample :
    RobotsRules.is_allowed ⟨[], [""], none⟩ "/" = true
    ∧ spec_is_allowed ⟨[], [""], none⟩ "/" = false :=
  ⟨by decide, by decide⟩

/-- Claim C1 (amended): for every rules object whose patterns are all
non-empty strings, `is_allowed` returns exactly the longest-prefix-rule
result of the claim (the code skips empty patterns, so the quantification
must exclude them); and on `allows = ["/a/b"]`, `disallows = ["/a"]` the
three concrete decisions of the claim hold. -/
theorem claim_c1 (r : RobotsRules) (p : String)
    (hA : "" ∉ r.allows) (hD : "" ∉ r.disallows) :
    r.is_allowed p = spec_is_allowed r p
    ∧ RobotsRules.is_allowed ⟨["/a/b"], ["/a"], none⟩ "/a/b/c" = true
    ∧ RobotsRules.is_allowed ⟨["/a/b"], ["/a"], none⟩ "/a/x" = false
    ∧ RobotsRules.is_allowed ⟨["/a/b"], ["/a"], none⟩ "/z" = true := by
  refine ⟨?_, by decide, by decide, by decide⟩
  unfold RobotsRules.is_allowed spec_is_allowed
  rw [longest_match_eq_spec p r.allows hA, longest_match_eq_spec p r.disallows hD]

/-- Claim C1 witness: the amended theorem applied to the claim's own
rules object and path `"/a/b/c"`. -/
theorem claim_c1_witness :
    RobotsRules.is_allowed ⟨["/a/b"], ["/a"], none⟩ "/a/b/c" =
      spec_is_allowed ⟨["/a/b"], ["/a"], none⟩ "/a/b/c" :=
  (claim_c1 ⟨["/a/b"], ["/a"], none⟩ "/a/b/c" (by decide) (by decide)).1

/-- Claim C2 counterexample: with `last_clicked_at_ms = 0` (a present
timestamp) and `now_ms = 3600000`, the code returns `ln 1 = 0` (it
treats a zero timestamp as absent), while the claim's formula gives
`-1`. -/
theorem claim_c2_counterexample :
    compute_ranking_score 999 0 0 (some 0) (some 3600000) 1 ≠
      Real.log (((0 : ℤ) : ℝ) + 1) + 0.7 * 0 -
        1 * max 0 ((((3600000 : ℤ) : ℝ) - ((0 : ℤ) : ℝ)) / 3600000) := by
  have hL : compute_ranking_score 999 0 0 (some 0) (some 3600000) 1 = 0 := by
    simp [compute_ranking_score, compute_decay_hours, pyOrInt, Real.log_one]
  rw [hL]
  norm_num [Real.log_one]

/-- Claim C2 (amended): `compute_ranking_score` equals
`ln(clicks_total + 1) + 0.7 * recent_clicks - decay_per_hour * decay_hours`
with `decay_hours = max(0, (now_ms - last_clicked_at_ms) / 3600000)` and
`0` when `last_clicked_at_ms` is absent — provided `now_ms` is nonzero
and `last_clicked_at_ms`, when present, is nonzero (the code treats a
zero `now_ms` as "read the clock" and a zero `last_clicked_at_ms` as
absent). -/
theorem claim_c2 (clock clicks_total : ℤ) (recent_clicks : ℝ)
    (last : Option ℤ) (now_v : ℤ) (d : ℝ) (hnow : now_v ≠ 0)
    (hlast : ∀ l, last = some l → l ≠ 0) :
    compute_ranking_score clock clicks_total recent_clicks last (some now_v) d =
      Real.log ((clicks_total : ℝ) + 1) + 0.7 * recent_clicks -
        d * (match last with
             | none => (0 : ℝ)
             | some l => max 0 (((now_v : ℝ) - (l : ℝ)) / 3600000)) := by
  cases last with
  | none =>
    simp [compute_ranking_score, compute_decay_hours, pyOrInt, hnow]
    ring
  | some l =>
    have hl := hlast l rfl
    simp [compute_ranking_score, compute_decay_hours, pyOrInt, hnow, hl]
    ring

/-- Claim C2 witness: the amended formula evaluated one hour after the
last click with `decay_per_hour = 1/20`. -/
theorem claim_c2_witness :
    compute_ranking_score 0 3 2 (some 3600000) (some 7200000) (1/20) =
      Real.log (((3 : ℤ) : ℝ) + 1) + 0.7 * 2 -
        (1/20) * max 0 ((((7200000 : ℤ) : ℝ) - ((3600000 : ℤ) : ℝ)) / 3600000) := by
  have h := claim_c2 0 3 2 (some 3600000) 7200000 (1/20) (by decide)
    (by intro l hl; cases hl; decide)
  simpa using h

/-- Claim C9 counterexample: two calls with identical arguments
(`now_ms` absent) made at different clock readings return different
scores, so the function is not independent of ambient state as claimed. -/
theorem claim_c9_counterexample :
    compute_ranking_score 3600000 0 0 (some 3600000) none 1 ≠
      compute_ranking_score 7200000 0 0 (some 3600000) none 1 := by
  have hL : compute_ranking_score 3600000 0 0 (some 3600000) none 1 = 0 := by
    simp [compute_ranking_score, compute_decay_hours, pyOrInt, Real.log_one]
  have hR : compute_ranking_score 7200000 0 0 (some 3600000) none 1 = -1 := by
    simp [compute_ranking_score, compute_decay_hours, pyOrInt, Real.log_one]
    norm_num
  rw [hL, hR]
  norm_num

/-- Claim C9 (amended): `compute_ranking_score` is a pure function of its
explicit arguments whenever `now_ms` is provided and nonzero — the result
is then independent of the ambient clock. -/
theorem claim_c9 (clock clock' clicks_total : ℤ) (recent_clicks : ℝ)
    (last : Option ℤ) (now_v : ℤ) (d : ℝ) (hnow : now_v ≠ 0) :
    compute_ranking_score clock clicks_total recent_clicks last (some now_v) d =
      compute_ranking_score clock' clicks_total recent_clicks last (some now_v) d := by
  simp [compute_ranking_score, compute_decay_hours, pyOrInt, hnow]

/-- Claim C9 witness: two different clock readings, same provided
`now_ms`, same score. -/
theorem claim_c9_witness :
    compute_ranking_score 1 0 0 none (some 5) 1 =
      compute_ranking_score 2 0 0 none (some 5) 1 :=
  claim_c9 1 2 0 0 none 5 1 (by decide)

/-- Claim C3: starting from no stored document, two `track_click` calls
with the same timestamp leave `clicks_total = 2`, `recent_clicks = 2.0`
and `ranking_score = ln 3 + 1.4`; after the first click alone (the
upsert path) the stored score is `ln 2 + 0.7`, its decay term being zero.
Holds for every timestamp, clock reading and decay coefficient. -/
theorem claim_c3 (clock t : ℤ) (d : ℝ) :
    (track_click clock t d (some (track_click clock t d none))).clicks_total = some 2
    ∧ (track_click clock t d (some (track_click clock t d none))).recent_clicks = some 2
    ∧ (track_click clock t d (some (track_click clock t d none))).ranking_score =
        some (Real.log 3 + 1.4)
    ∧ (track_click clock t d none).ranking_score = some (Real.log 2 + 0.7) := by
  have hup : (track_click clock t d none).ranking_score = some (Real.log 2 + 0.7) := by
    by_cases ht : t = 0
    · subst ht
      simp [track_click, track_click_upsert, compute_ranking_score,
        compute_decay_hours, pyOrInt]
      norm_num
    · simp [track_click, track_click_upsert, compute_ranking_score,
        compute_decay_hours, pyOrInt, ht]
      norm_num
  refine ⟨by simp [track_click, click_update, track_click_upsert], ?_, ?_, hup⟩
  · simp [track_click, click_update, track_click_upsert]
    norm_num
  · simp [track_click, click_update, track_click_upsert]
    ring_nf

/-- Claim C4: `_increment_pages` (the spec's `reserve_page_slot`) sets
the stop flag and returns none, leaving the counter unchanged, when the
counter has reached `max_pages`; otherwise it increments, sets stop
exactly when the new value equals `max_pages`, and returns the new
value.  Every frontier operation preserves `pages_crawled ≤ max_pages`,
and none clears a set stop flag. -/
theorem claim_c4 (max_pages : ℤ) (s : FrontierState) :
    (s.pages_crawled ≥ max_pages →
      increment_pages max_pages s = (none, { s with stop := true }))
    ∧ (s.pages_crawled < max_pages →
      increment_pages max_pages s =
        (some (s.pages_crawled + 1),
          { s with pages_crawled := s.pages_crawled + 1,
                   stop := s.stop || decide (s.pages_crawled + 1 = max_pages) }))
    ∧ (∀ op, s.pages_crawled ≤ max_pages →
        (applyFrontierOp max_pages s op).pages_crawled ≤ max_pages)
    ∧ (∀ op, s.stop = true → (applyFrontierOp max_pages s op).stop = true) := by
  refine ⟨?_, ?_, ?_, ?_⟩
  · intro h
    simp [increment_pages, h]
  · intro h
    have hng : ¬ (s.pages_crawled ≥ max_pages) := not_le.mpr h
    have hd : decide (max_pages ≤ s.pages_crawled + 1) =
        decide (s.pages_crawled + 1 = max_pages) := decide_eq_decide.mpr (by omega)
    simp [increment_pages, hng]
    rw [hd]
  · intro op h
    cases op with
    | enq url =>
      by_cases hc : url ∈ s.visited ∨ url ∈ s.enqueued ∨ s.stop <;>
        simp [applyFrontierOp, mark_enqueued, hc] <;> exact h
    | visit url => simpa [applyFrontierOp, mark_visited] using h
    | slot =>
      simp only [applyFrontierOp, increment_pages]
      split
      · simpa using h
      · simp
        omega
  · intro op h
    cases op with
    | enq url =>
      by_cases hc : url ∈ s.visited ∨ url ∈ s.enqueued ∨ s.stop <;>
        simp [applyFrontierOp, mark_enqueued, hc] <;> exact h
    | visit url => simpa [applyFrontierOp, mark_visited] using h
    | slot =>
      simp only [applyFrontierOp, increment_pages]
      split
      · simp
      · simp [h]

/-- Claim C4 witness: at the cap (`pages_crawled = max_pages = 0`) the
reservation returns none and sets stop. -/
theorem claim_c4_witness :
    increment_pages 0 ⟨[], [], 0, false⟩ = (none, ⟨[], [], 0, true⟩) :=
  (claim_c4 0 ⟨[], [], 0, false⟩).1 (by decide)

/-- Claim C8 counterexample: a whitespace-only link is not rejected —
the code tests emptiness before trimming, so `" "` resolves against the
base and a result is returned. -/
theorem claim_c8_counterexample :
    normalize_url (fun b l => b ++ l) (fun s => s) "http://a/" (some " ") ≠ none := by
  decide

/-- Claim C8 (amended): `normalize_url` rejects a missing or literally
empty link, but it tests emptiness *before* trimming; a link that trims
to empty is therefore resolved against the base (as `urljoin base ""`)
and returned defragmented, not rejected. -/
theorem claim_c8 (urljoin : String → String → String)
    (defragment : String → String) (base : String) :
    normalize_url urljoin defragment base none = none
    ∧ normalize_url urljoin defragment base (some "") = none
    ∧ ∀ l : String, l ≠ "" → pyStrip l = "" →
        normalize_url urljoin defragment base (some l) =
          some (defragment (urljoin base "")) := by
  refine ⟨rfl, rfl, ?_⟩
  intro l h1 h2
  have h3 : pyStartsWith "" "mailto:" = false := by decide
  have h4 : pyStartsWith "" "tel:" = false := by decide
  have h5 : pyStartsWith "" "javascript:" = false := by decide
  simp [normalize_url, h1, h2, h3, h4, h5]

/-- Claim C8 witness: the single-space link under a concrete
concatenation model of `urljoin`. -/
theorem claim_c8_witness :
    normalize_url (fun b l => b ++ l) (fun s => s) "http://a/" (some " ") =
      some "http://a/" := by
  have h := (claim_c8 (fun b l => b ++ l) (fun s => s) "http://a/").2.2 " "
    (by decide) (by decide)
  rw [h]
  decide

/-- The retry loop performs at most as many HTTP attempts as there are
attempt numbers left. -/
theorem fetch_loop_count_le (resp : ℕ → HttpOutcome) (backoff : ℝ) :
    ∀ (l : List ℕ) (lastE : Option FetchError),
      (fetch_loop resp backoff l lastE).2.1 ≤ l.length := by
  intro l
  induction l with
  | nil => intro lastE; simp [fetch_loop]
  | cons a t ih =>
    intro lastE
    simp only [fetch_loop]
    cases h : attemptResult (resp a) with
    | ok b => simp [h]
    | error e =>
      simp only [h, List.length_cons]
      have := ih (some e)
      omega

/-- When every attempt in the window fails, the loop runs the whole
window, sleeps after every attempt but the last, and surfaces the error
of the last attempt. -/
theorem fetch_loop_all_fail (resp : ℕ → HttpOutcome) (backoff : ℝ)
    (E : ℕ → FetchError) :
    ∀ (n s : ℕ) (lastE : Option FetchError),
      (∀ i, s ≤ i → i < s + n → attemptResult (resp i) = .error (E i)) →
      fetch_loop resp backoff (List.range' s n) lastE =
        (.error (if n = 0 then lastE else some (E (s + n - 1))), n,
          (List.range' s (n - 1)).map fun a => backoff * (a : ℝ)) := by
  intro n
  induction n with
  | zero => intro s lastE h; simp [fetch_loop]
  | succ m ih =>
    intro s lastE h
    rw [List.range'_succ]
    have ha : attemptResult (resp s) = .error (E s) := h s le_rfl (by omega)
    simp only [fetch_loop, ha]
    have ih' := ih (s + 1) (some (E s)) (fun i h1 h2 => h i (by omega) (by omega))
    rw [ih']
    cases m with
    | zero => simp
    | succ k =>
      have hne : (List.range' (s + 1) (k + 1)).isEmpty = false := by
        rw [List.isEmpty_eq_false_iff_exists_mem]
        exact ⟨s + 1, by simp⟩
      simp only [hne]
      refine congrArg₂ Prod.mk ?_ (congrArg₂ Prod.mk rfl ?_)
      · have : s + 1 + (k + 1) - 1 = s + (k + 1 + 1) - 1 := by omega
        simp [this]
      · rw [show (k + 1 + 1 - 1) = k + 1 from rfl, List.range'_succ]
        simp

/-- When the first success is at attempt `s + j` inside the window, the
loop performs `j + 1` attempts, sleeping after each of the `j` failures,
and returns the successful body. -/
theorem fetch_loop_first_ok (resp : ℕ → HttpOutcome) (backoff : ℝ)
    (E : ℕ → FetchError) (body : String) :
    ∀ (j n s : ℕ) (lastE : Option FetchError),
      j < n →
      (∀ i, s ≤ i → i < s + j → attemptResult (resp i) = .error (E i)) →
      attemptResult (resp (s + j)) = .ok body →
      fetch_loop resp backoff (List.range' s n) lastE =
        (.ok body, j + 1, (List.range' s j).map fun a => backoff * (a : ℝ)) := by
  intro j
  induction j with
  | zero =>
    intro n s lastE hjn hfail hok
    cases n with
    | zero => omega
    | succ m =>
      rw [List.range'_succ]
      rw [Nat.add_zero] at hok
      simp [fetch_loop, hok]
  | succ k ih =>
    intro n s lastE hjn hfail hok
    cases n with
    | zero => omega
    | succ m =>
      rw [List.range'_succ]
      have ha : attemptResult (resp s) = .error (E s) := hfail s le_rfl (by omega)
      simp only [fetch_loop, ha]
      have hok' : attemptResult (resp (s + 1 + k)) = .ok body := by
        rw [show s + 1 + k = s + (k + 1) by omega]
        exact hok
      have ih' := ih m (s + 1) (some (E s)) (by omega)
        (fun i h1 h2 => hfail i (by omega) (by omega)) hok'
      rw [ih']
      have hne : (List.range' (s + 1) m).isEmpty = false := by
        rw [List.isEmpty_eq_false_iff_exists_mem]
        exact ⟨s + 1, by simp; omega⟩
      simp only [hne]
      refine congrArg₂ Prod.mk rfl (congrArg₂ Prod.mk rfl ?_)
      rw [List.range'_succ]
      simp

/-- Claim C5 counterexample: a 304 response is not a 2xx, yet
`raise_for_status` does not raise below 400, so a single-attempt fetch
returns the 304 body as a success — the claim predicts a failed attempt
whose error is raised. -/
theorem claim_c5_counterexample :
    fetch (fun _ => HttpOutcome.success 304 "not modified") 1 1 =
      (Except.ok "not modified", 1, []) := rfl

/-- Claim C5 (amended): `fetch` performs at most `max_retries` HTTP
attempts; an attempt fails on a network error or a status of 400 or
higher (not every non-2xx: `raise_for_status` passes 3xx through); the
first successful attempt `k` ends the loop with its body after exactly
`k` attempts and sleeps `backoff * 1, ..., backoff * (k-1)`; if every
attempt fails, the last attempt's error is surfaced after
`max_retries` attempts and `max_retries - 1` sleeps; and a 500 on
attempt 1 followed by a 200 on attempt 2 yields exactly two attempts
with one sleep of `backoff * 1`. -/
theorem claim_c5 (resp : ℕ → HttpOutcome) (backoff : ℝ) (max_retries : ℕ) :
    ((fetch resp backoff max_retries).2.1 ≤ max_retries)
    ∧ (∀ (E : ℕ → FetchError) (k : ℕ) (body : String),
        1 ≤ k → k ≤ max_retries →
        (∀ i, 1 ≤ i → i < k → attemptResult (resp i) = Except.error (E i)) →
        attemptResult (resp k) = Except.ok body →
        fetch resp backoff max_retries =
          (Except.ok body, k, (List.range' 1 (k - 1)).map fun a => backoff * (a : ℝ)))
    ∧ (∀ E : ℕ → FetchError, 1 ≤ max_retries →
        (∀ i, 1 ≤ i → i ≤ max_retries → attemptResult (resp i) = Except.error (E i)) →
        fetch resp backoff max_retries =
          (Except.error (some (E max_retries)), max_retries,
            (List.range' 1 (max_retries - 1)).map fun a => backoff * (a : ℝ)))
    ∧ (∀ (b1 body : String), 2 ≤ max_retries →
        resp 1 = HttpOutcome.success 500 b1 → resp 2 = HttpOutcome.success 200 body →
        fetch resp backoff max_retries = (Except.ok body, 2, [backoff * 1])) := by
  refine ⟨?_, ?_, ?_, ?_⟩
  · have := fetch_loop_count_le resp backoff (List.range' 1 max_retries) none
    simpa [fetch] using this
  · intro E k body hk1 hkM hfail hok
    have hj : k - 1 < max_retries := by omega
    have hok' : attemptResult (resp (1 + (k - 1))) = Except.ok body := by
      rw [show 1 + (k - 1) = k by omega]
      exact hok
    have h := fetch_loop_first_ok resp backoff E body (k - 1) max_retries 1 none hj
      (fun i h1 h2 => hfail i h1 (by omega)) hok'
    rw [fetch, h]
    have : k - 1 + 1 = k := by omega
    rw [this]
  · intro E hM hfail
    have h := fetch_loop_all_fail resp backoff E max_retries 1 none
      (fun i h1 h2 => hfail i h1 (by omega))
    rw [fetch, h]
    have hne : ¬ (max_retries = 0) := by omega
    simp only [hne, if_false]
    have : 1 + max_retries - 1 = max_retries := by omega
    rw [this]
  · intro b1 body hM h1 h2
    have hE : ∀ i, 1 ≤ i → i < 2 →
        attemptResult (resp i) = Except.error (FetchError.httpStatus 500) := by
      intro i hi1 hi2
      have : i = 1 := by omega
      subst this
      rw [h1]
      simp [attemptResult]
    have hok : attemptResult (resp 2) = Except.ok body := by
      rw [h2]
      simp [attemptResult]
    have h := fetch_loop_first_ok resp backoff (fun _ => FetchError.httpStatus 500)
      body 1 max_retries 1 none (by omega) (fun i hi1 hi2 => hE i hi1 (by omega))
      (by simpa using hok)
    rw [fetch, h]
    norm_num

/-- Claim C5 witness: the 500-then-200 scenario with `max_retries = 2`
and `backoff = 3/2`. -/
theorem claim_c5_witness :
    fetch (fun i => if i = 1 then HttpOutcome.success 500 "oops"
        else HttpOutcome.success 200 "B") (3/2) 2 =
      (Except.ok "B", 2, [(3/2 : ℝ) * 1]) :=
  (claim_c5 (fun i => if i = 1 then HttpOutcome.success 500 "oops"
      else HttpOutcome.success 200 "B") (3/2) 2).2.2.2 "oops" "B" (by norm_num)
    (by simp) (by simp)

/-- Appending a fresh entry for an absent key makes `mapFind` return it. -/
theorem mapFind_append_self (c : List (String × RobotsRules)) (k : String)
    (v : RobotsRules) (h : mapFind c k = none) :
    mapFind (c ++ [(k, v)]) k = some v := by
  unfold mapFind at *
  have hf : c.find? (fun kv => kv.1 == k) = none := by
    cases hx : c.find? (fun kv => kv.1 == k) with
    | none => rfl
    | some kv => rw [hx] at h; simp at h
  rw [List.find?_append, hf]
  simp

/-- Claim C6: `ensure_rules` returns the cached rules without fetching
when the origin is cached; on a first call it fetches once, storing the
parsed rules on HTTP 200 and empty allow-all rules on any other status
or network error (never raising); and after any call the origin is
cached, so every later call for it returns the stored rules with no
further fetch, whatever that fetch would have returned. -/
theorem claim_c6 (pf : String → Option ℚ) (ua : String)
    (cache : List (String × RobotsRules)) (origin : String)
    (out : RobotsFetchOutcome) :
    (∀ r, mapFind cache origin = some r →
      ensure_rules pf ua cache origin out = (r, cache, false))
    ∧ (mapFind cache origin = none →
        (ensure_rules pf ua cache origin out).2.2 = true
        ∧ (∀ body, out = .response 200 body →
            (ensure_rules pf ua cache origin out).1 = parse_robots pf ua body)
        ∧ (∀ st body, out = .response st body → st ≠ 200 →
            (ensure_rules pf ua cache origin out).1 = emptyRules)
        ∧ (∀ msg, out = .failure msg →
            (ensure_rules pf ua cache origin out).1 = emptyRules))
    ∧ (∀ out2,
        ensure_rules pf ua (ensure_rules pf ua cache origin out).2.1 origin out2 =
          ((ensure_rules pf ua cache origin out).1,
            (ensure_rules pf ua cache origin out).2.1, false)) := by
  refine ⟨?_, ?_, ?_⟩
  · intro r h
    simp [ensure_rules, h]
  · intro h
    refine ⟨by simp [ensure_rules, h], ?_, ?_, ?_⟩
    · intro body hb
      subst hb
      simp [ensure_rules, h, fetched_rules]
    · intro st body hb hst
      subst hb
      simp [ensure_rules, h, fetched_rules, hst]
    · intro msg hb
      subst hb
      simp [ensure_rules, h, fetched_rules]
  · intro out2
    cases hc : mapFind cache origin with
    | some r =>
      simp [ensure_rules, hc]
    | none =>
      have hstore : mapFind (cache ++ [(origin, fetched_rules pf ua out)]) origin =
          some (fetched_rules pf ua out) := mapFind_append_self cache origin _ hc
      simp [ensure_rules, hc, hstore]

/-- Claim C6 witness: a cached origin is answered from the cache with no
fetch, even when the ambient fetch outcome is a network failure. -/
theorem claim_c6_witness :
    ensure_rules (fun _ => none) "OfflineSEOEngine/1.0"
        [("http://a", emptyRules)] "http://a" (.failure "net down") =
      (emptyRules, [("http://a", emptyRules)], false) :=
  (claim_c6 (fun _ => none) "OfflineSEOEngine/1.0" [("http://a", emptyRules)]
    "http://a" (.failure "net down")).1 emptyRules (by decide)

/-- Claim C7 counterexample: for a stored document whose last click lies
one hour in the future of the sweep (`last_clicked_at_ms = 3600000`,
`now_ms = 0`, `decay_per_hour = 1`), the sweep computes score `1`
(negative decay hours boost the score), while the claim's §4.9 formula,
whose decay hours are clamped at zero, gives `0`. -/
theorem claim_c7_counterexample :
    (decay_update 0 0.85 1 ⟨some 0, some 0, some 3600000, some 0⟩).ranking_score ≠
      some (Real.log (((0 : ℤ) : ℝ) + 1) + 0.7 * 0 -
        1 * max 0 ((((0 : ℤ) : ℝ) - ((3600000 : ℤ) : ℝ)) / 3600000)) := by
  have hL : (decay_update 0 0.85 1 ⟨some 0, some 0, some 3600000, some 0⟩).ranking_score
      = some 1 := by
    simp [decay_update, Real.log_one]
  rw [hL]
  have hR : Real.log (((0 : ℤ) : ℝ) + 1) + 0.7 * 0 -
      1 * max 0 ((((0 : ℤ) : ℝ) - ((3600000 : ℤ) : ℝ)) / 3600000) = 0 := by
    norm_num [Real.log_one]
  rw [hR]
  norm_num

/-- Claim C7 (amended): one decay-sweep tick multiplies `recent_clicks`
by the multiplier, floors results below `0.01` to `0.0`, and recomputes
the score as `ln(clicks_total + 1) + 0.7 * recent_clicks -
decay_per_hour * (now_ms - last_clicked_at_ms) / 3600000` with the
decay term *unclamped* (the claim's clamped §4.9 formula agrees only
when the last click is not in the sweep's future).  The claim's two
concrete examples hold: (5, 10, last = now) ↦ recent `8.5`, score
`ln 6 + 5.95`; and recent `0.005` is floored to `0.0`. -/
theorem claim_c7 :
    (∀ (now : ℤ) (d : ℝ) (score0 : Option ℝ),
      decay_update now 0.85 d ⟨some 5, some 10, some now, score0⟩ =
        ⟨some 5, some 8.5, some now, some (Real.log 6 + 5.95)⟩)
    ∧ (∀ (now : ℤ) (mult d : ℝ) (doc : PageDoc),
        doc.recent_clicks = some 0.005 → mult = 0.85 →
        (decay_update now mult d doc).recent_clicks = some 0)
    ∧ (∀ (now : ℤ) (mult d : ℝ) (doc : PageDoc),
        (decay_update now mult d doc).recent_clicks =
          some (if (doc.recent_clicks.getD 0) * mult < 0.01 then 0
                else (doc.recent_clicks.getD 0) * mult))
    ∧ (∀ (now : ℤ) (mult d : ℝ) (doc : PageDoc),
        (decay_update now mult d doc).ranking_score =
          some (Real.log (((doc.clicks_total.getD 0 : ℤ) : ℝ) + 1) +
            0.7 * ((decay_update now mult d doc).recent_clicks.getD 0) -
            d * (((now : ℝ) - ((doc.last_clicked_at_ms.getD now : ℤ) : ℝ)) / 3600000))) := by
  refine ⟨?_, ?_, ?_, ?_⟩
  · intro now d score0
    have hno : ¬ ((10 : ℝ) * 0.85 < 0.01) := by norm_num
    simp [decay_update, hno, PageDoc.mk.injEq]
    norm_num
  · intro now mult d doc h1 h2
    subst h2
    have hlt : ((doc.recent_clicks.getD 0) : ℝ) * 0.85 < 0.01 := by
      rw [h1]
      norm_num [Option.getD_some]
    simp [decay_update, hlt]
  · intro now mult d doc
    simp [decay_update]
  · intro now mult d doc
    simp only [decay_update, Option.getD_some]
    congr 1
    ring

/-- Claim C7 witness: the flooring example at `recent_clicks = 0.005`. -/
theorem claim_c7_witness :
    (decay_update 0 0.85 0 ⟨some 0, some 0.005, none, none⟩).recent_clicks = some 0 :=
  (claim_c7).2.1 0 0.85 0 ⟨some 0, some 0.005, none, none⟩ rfl rfl

/-- Property of a rules object: no stored pattern is the empty string. -/
def NoEmptyPatterns (r : RobotsRules) : Prop :=
  "" ∉ r.allows ∧ "" ∉ r.disallows

/-- Property of a rules map: every stored rules object satisfies
`NoEmptyPatterns`. -/
def MapNoEmpty (m : List (String × RobotsRules)) : Prop :=
  ∀ kv ∈ m, NoEmptyPatterns kv.2

theorem noEmpty_emptyRules : NoEmptyPatterns emptyRules := by
  constructor <;> simp [emptyRules]

theorem mapSetdefault_noEmpty (m : List (String × RobotsRules)) (k : String)
    (h : MapNoEmpty m) : MapNoEmpty (mapSetdefault m k) := by
  unfold mapSetdefault
  split
  · exact h
  · intro kv hkv
    rcases List.mem_append.mp hkv with hm | hs
    · exact h kv hm
    · rcases List.mem_singleton.mp hs with rfl
      exact noEmpty_emptyRules

theorem mapModify_noEmpty (m : List (String × RobotsRules)) (k : String)
    (f : RobotsRules → RobotsRules) (h : MapNoEmpty m)
    (hf : ∀ r, NoEmptyPatterns r → NoEmptyPatterns (f r)) :
    MapNoEmpty (mapModify m k f) := by
  intro kv hkv
  rcases List.mem_map.mp hkv with ⟨kv0, h0, heq⟩
  by_cases hk : (kv0.1 == k) = true
  · rw [hk] at heq
    simp at heq
    rw [← heq]
    exact hf _ (h kv0 h0)
  · rw [Bool.not_eq_true] at hk
    rw [hk] at heq
    simp at heq
    rw [← heq]
    exact h kv0 h0

theorem addPattern_noEmpty (b : Bool) (v : String) (hv : v ≠ "")
    (r : RobotsRules) (h : NoEmptyPatterns r) :
    NoEmptyPatterns (addPattern b v r) := by
  obtain ⟨hA, hD⟩ := h
  cases b <;>
    refine ⟨?_, ?_⟩ <;>
    simp [addPattern] <;>
    simp [List.mem_append, hA, hD] <;>
    exact fun e => hv e.symm

theorem applyDirective_noEmpty (b : Bool) (v : String)
    (m : List (String × RobotsRules)) (a : String) (h : MapNoEmpty m) :
    MapNoEmpty (applyDirective b v m a) := by
  unfold applyDirective
  by_cases hv : v = ""
  · simp [hv]
    exact mapSetdefault_noEmpty m a h
  · simp [hv]
    exact mapModify_noEmpty _ _ _ (mapSetdefault_noEmpty m a h)
      (addPattern_noEmpty b v hv)

theorem applyCrawlDelay_noEmpty (delay : ℚ)
    (m : List (String × RobotsRules)) (a : String) (h : MapNoEmpty m) :
    MapNoEmpty (applyCrawlDelay delay m a) := by
  unfold applyCrawlDelay
  exact mapModify_noEmpty _ _ _ (mapSetdefault_noEmpty m a h)
    (fun r hr => ⟨hr.1, hr.2⟩)

theorem foldl_map_noEmpty (f : List (String × RobotsRules) → String →
      List (String × RobotsRules))
    (hp : ∀ m a, MapNoEmpty m → MapNoEmpty (f m a)) :
    ∀ (l : List String) (m : List (String × RobotsRules)),
      MapNoEmpty m → MapNoEmpty (l.foldl f m) := by
  intro l
  induction l with
  | nil => intro m h; exact h
  | cons a t ih => intro m h; exact ih (f m a) (hp m a h)

theorem processLine_noEmpty (pf : String → Option ℚ) (st : ParseState)
    (raw : String) (h : MapNoEmpty st.rules_map) :
    MapNoEmpty (processLine pf st raw).rules_map := by
  unfold processLine
  dsimp only
  split
  · exact h
  · split
    · exact h
    · rename_i k v heq
      split
      · exact mapSetdefault_noEmpty _ _ h
      · split
        · split
          · exact h
          · exact foldl_map_noEmpty _
              (fun m a hm => applyDirective_noEmpty _ _ m a hm) _ _ h
        · split
          · split
            · exact h
            · split
              · exact h
              · exact foldl_map_noEmpty _
                  (fun m a hm => applyCrawlDelay_noEmpty _ m a hm) _ _ h
          · exact h

theorem foldl_processLine_noEmpty (pf : String → Option ℚ) :
    ∀ (lines : List String) (st : ParseState), MapNoEmpty st.rules_map →
      MapNoEmpty ((lines.foldl (processLine pf) st).rules_map) := by
  intro lines
  induction lines with
  | nil => intro st h; exact h
  | cons a t ih => intro st h; exact ih _ (processLine_noEmpty pf st a h)

theorem parse_robots_noEmpty (pf : String → Option ℚ) (ua content : String) :
    NoEmptyPatterns (parse_robots pf ua content) := by
  unfold parse_robots
  dsimp only
  have hmap : MapNoEmpty (((pySplitlines content).foldl (processLine pf)
      ⟨[], [], none⟩).rules_map) :=
    foldl_processLine_noEmpty pf _ _ (by intro kv hkv; simp at hkv)
  split
  · rename_i kv hfind
    exact hmap kv (List.mem_of_find?_eq_some hfind)
  · unfold mapFind
    cases hx : (((pySplitlines content).foldl (processLine pf)
        ⟨[], [], none⟩).rules_map.find? fun kv => kv.1 == "*") with
    | none => simp [hx, noEmpty_emptyRules]
    | some kv =>
      simp [hx]
      exact hmap kv (List.mem_of_find?_eq_some hx)

/-- With an empty disallow list, `is_allowed` is true for every path. -/
theorem is_allowed_nil_disallows (A : List String) (cd : Option ℚ) (p : String) :
    RobotsRules.is_allowed ⟨A, [], cd⟩ p = true := by
  simp [RobotsRules.is_allowed, longest_match_length]

/-- Claim C10: removing all empty-string patterns from a rules object
never changes `is_allowed` (the code skips empty patterns when matching);
the parser never stores an empty `Allow`/`Disallow` value, whatever the
content, user agent and float parser; and the canonical bare
`Disallow:` document blocks no path. -/
theorem claim_c10 :
    (∀ (r : RobotsRules) (p : String),
      RobotsRules.is_allowed
        ⟨r.allows.filter (fun s => !(s == "")),
          r.disallows.filter (fun s => !(s == "")), r.crawl_delay⟩ p
        = r.is_allowed p)
    ∧ (∀ (pf : String → Option ℚ) (ua content : String),
        "" ∉ (parse_robots pf ua content).allows ∧
          "" ∉ (parse_robots pf ua content).disallows)
    ∧ (∀ p : String,
        (parse_robots (fun _ => none) "OfflineSEOEngine/1.0"
          "User-agent: *\nDisallow:").is_allowed p = true) := by
  refine ⟨?_, ?_, ?_⟩
  · intro r p
    have key : ∀ l : List String,
        longest_match_length p (l.filter fun s => !(s == "")) =
          longest_match_length p l := by
      intro l
      unfold longest_match_length
      have hf : ∀ l : List String,
          (l.filter fun s => !(s == "")).filter
              (fun rule => !(rule == "") && pyStartsWith p rule) =
            l.filter (fun rule => !(rule == "") && pyStartsWith p rule) := by
        intro l
        induction l with
        | nil => rfl
        | cons a t ih =>
          cases ha : (a == "") <;> simp [List.filter_cons, ha, ih]
      simp only [hf]
    simp only [RobotsRules.is_allowed, key]
  · intro pf ua content
    exact parse_robots_noEmpty pf ua content
  · intro p
    have hd : (parse_robots (fun _ => none) "OfflineSEOEngine/1.0"
        "User-agent: *\nDisallow:") = emptyRules := by decide
    rw [hd]
    exact is_allowed_nil_disallows [] none p

end SeoPages
